/-
  Verification development for scripts/blender_explode.py.

  The definitions below are shallow embeddings of the pure computations of
  the script: object size estimation (get_object_size), step partitioning
  of the part list (main, lines 977-988), per-step position reset and
  explosion (main, lines 991-1032), arrow geometry (create_arrow,
  lines 414-472), camera framing (frame_objects, lines 667-739) and the
  time estimate written to metadata (main, lines 1200-1204).

  Real-valued quantities of the script are modelled over the exact reals;
  bounding-box dimensions, which only ever feed comparisons and one mean,
  are modelled over the rationals so that they stay decidable.  Vector
  length is sqrt of the sum of squares, as in mathutils; normalized
  returns the zero vector below the 1e-6 length guard, matching the
  semantics of the vector mock shipped with the repository.
-/
import Mathlib

namespace BlenderExplode

/-! ### Configuration constants of the script (lines 80-107) -/

noncomputable def arrowThicknessRatio : ℝ := 0.05
noncomputable def arrowHeadSizeRatio : ℝ := 0.15
noncomputable def ARROW_MIN_THICKNESS : ℝ := 0.02
noncomputable def ARROW_MAX_THICKNESS : ℝ := 0.15
noncomputable def ARROW_MIN_HEAD_SIZE : ℝ := 0.06
noncomputable def ARROW_MAX_HEAD_SIZE : ℝ := 0.4
noncomputable def ARROW_MIN_LENGTH_FACTOR : ℝ := 0.5
noncomputable def EXPLODE_FACTOR : ℝ := 0.8
noncomputable def MAX_EXPLODE_DISTANCE : ℝ := 10.0
def TARGET_STEPS : ℕ := 6
noncomputable def CAMERA_DISTANCE_FACTOR : ℝ := 1.5

/-! ### get_object_size (lines 403-411)

An object is modelled as `Option` of its bounding-box dimensions: `none`
for an invalid / missing object (the `not obj or not hasattr` branch). -/

/-- get_object_size: the mean of the bounding-box dimensions exceeding
1e-6; 1e-6 when every dimension is degenerate; 1.0 for an invalid
object. -/
def get_object_size : Option (ℚ × ℚ × ℚ) → ℚ
  | none => 1
  | some (dx, dy, dz) =>
    let valid_dims := [dx, dy, dz].filter (fun d => 1 / 1000000 < d)
    if valid_dims = [] then 1 / 1000000
    else valid_dims.sum / valid_dims.length

/-! ### Step partitioning (main, lines 977-988) -/

/-- step_size: `max(1, ceil(n / T))` when both counts are positive,
otherwise the fallback `max(1, ceil(n / 5))`.  Integer ceiling division
models math.ceil of the exact quotient. -/
def step_size (n T : ℕ) : ℕ :=
  if 0 < T ∧ 0 < n then max 1 ((n + T - 1) / T) else max 1 ((n + 5 - 1) / 5)

/-- The start indices of the steps: Python range(0, n, s). -/
def stepStarts (n s : ℕ) : List ℕ :=
  (List.range ((n + s - 1) / s)).map (· * s)

/-- Indices of the new parts of the step starting at i:
Python range(i, min(i + s, n)). -/
def stepNewParts (n s i : ℕ) : List ℕ :=
  List.range' i (min (i + s) n - i)

/-- All step slices, in step order. -/
def stepSlices (n s : ℕ) : List (List ℕ) :=
  (stepStarts n s).map (stepNewParts n s)

/-- The `is_assembled = j < i` test of the explode loop (line 1011). -/
def is_assembled (j i : ℕ) : Bool := j < i

/-- The accumulated new-part indices of the first t steps: the content of
active_parts_in_scene when the step with step number t begins (lines
989 and 1140). -/
def assembledBefore (n s t : ℕ) : List ℕ :=
  ((stepSlices n s).take t).flatten

/-! ### Vectors (mathutils.Vector) -/

/-- A 3D vector with real components. -/
@[ext] structure Vec3 where
  x : ℝ
  y : ℝ
  z : ℝ

noncomputable instance : Add Vec3 :=
  ⟨fun a b => ⟨a.x + b.x, a.y + b.y, a.z + b.z⟩⟩

noncomputable instance : Sub Vec3 :=
  ⟨fun a b => ⟨a.x - b.x, a.y - b.y, a.z - b.z⟩⟩

noncomputable instance : SMul ℝ Vec3 :=
  ⟨fun c v => ⟨c * v.x, c * v.y, c * v.z⟩⟩

/-- Euclidean length, as mathutils Vector.length. -/
noncomputable def Vec3.length (v : Vec3) : ℝ :=
  Real.sqrt (v.x ^ 2 + v.y ^ 2 + v.z ^ 2)

/-- Vector.normalized of the repository: v / |v| above the 1e-6 length
guard, the zero vector otherwise. -/
noncomputable def Vec3.normalized (v : Vec3) : Vec3 :=
  if 1 / 1000000 < v.length then (1 / v.length) • v else ⟨0, 0, 0⟩

/-- Componentwise order, used to state bounding-box facts. -/
def Vec3.le (a b : Vec3) : Prop :=
  a.x ≤ b.x ∧ a.y ≤ b.y ∧ a.z ≤ b.z

/-! ### Explosion of the not-yet-assembled parts (main, lines 1009-1032) -/

/-- Lines 1014-1016: the raw explode direction - outward from the
assembled center, replaced by an oblique unit-circle offset when the part
sits within 0.1 of the center. -/
noncomputable def explodeDirRaw (j : ℕ) (base assembled_center : Vec3) : Vec3 :=
  if (base - assembled_center).length < 0.1 then
    Vec3.mk (Real.cos ((j : ℝ) * 0.5) * 0.5) (Real.sin ((j : ℝ) * 0.5) * 0.5) 1.0
  else base - assembled_center

/-- Lines 1017-1021: the raw direction normalized above the 1e-6 guard,
with the fallback (0,0,1). -/
noncomputable def explodeDir (j : ℕ) (base assembled_center : Vec3) : Vec3 :=
  if 1 / 1000000 < (explodeDirRaw j base assembled_center).length then
    (explodeDirRaw j base assembled_center).normalized
  else Vec3.mk 0 0 1

/-- Line 1025: `(num_total_parts - j) / num_total_parts` with the
guard for an empty part list. -/
noncomputable def partsRemainingFactor (n j : ℕ) : ℝ :=
  if 0 < n then ((n : ℝ) - (j : ℝ)) / (n : ℝ) else 0

/-- Lines 1026-1027: the non-linear distance, capped at the maximum
explode distance. -/
noncomputable def explodeDistance (n j : ℕ) : ℝ :=
  min (EXPLODE_FACTOR * (1 + partsRemainingFactor n j * 4)) MAX_EXPLODE_DISTANCE

/-- The exploded position of part j (lines 1024-1032): base plus the
capped distance along the explode direction, then the vertical lift
added onto z. -/
noncomputable def explodedPos (n j : ℕ) (base assembled_center : Vec3)
    (part_size : ℝ) : Vec3 :=
  Vec3.mk
    (base + explodeDistance n j • explodeDir j base assembled_center).x
    (base + explodeDistance n j • explodeDir j base assembled_center).y
    ((base + explodeDistance n j • explodeDir j base assembled_center).z
      + EXPLODE_FACTOR * 0.8 * (1 + partsRemainingFactor n j) * part_size)

/-! ### Per-step position state (main, lines 991-996 and 1009-1032) -/

/-- Scene state: the recorded base positions and the current positions of
the parts, indexed by part number. -/
structure SceneState where
  base : ℕ → Vec3
  pos : ℕ → Vec3

/-- Lines 991-996: reset every part to its recorded base position. -/
def resetToBase (st : SceneState) : SceneState :=
  { st with pos := fun j => st.base j }

/-- Lines 1009-1032: explode every not-yet-assembled part (j ≥ i) of the
step starting at index i; assembled parts are left untouched. -/
noncomputable def explodeStep (n i : ℕ) (c : Vec3) (size : ℕ → ℝ)
    (st : SceneState) : SceneState :=
  { st with
    pos := fun j =>
      if j < n ∧ is_assembled j i = false then
        explodedPos n j (st.base j) c (size j)
      else st.pos j }

/-- The position-computation phase of one step: reset, then explode. -/
noncomputable def stepCompute (n i : ℕ) (c : Vec3) (size : ℕ → ℝ)
    (st : SceneState) : SceneState :=
  explodeStep n i c size (resetToBase st)

/-- The whole step loop, folding the per-step computation over the step
start indices. -/
noncomputable def runSteps (n : ℕ) (c : Vec3) (size : ℕ → ℝ)
    (st : SceneState) (starts : List ℕ) : SceneState :=
  starts.foldl (fun s i => stepCompute n i c size s) st

/-! ### create_arrow (lines 414-472) -/

/-- The geometry produced by create_arrow: the shaft cylinder and head
cone parameters computed at lines 449-472. -/
structure ArrowGeom where
  startPoint : Vec3
  endPoint : Vec3
  height : ℝ
  shaftRadius : ℝ
  shaftDepth : ℝ
  shaftCenter : Vec3
  headRadius : ℝ
  headDepth : ℝ
  headCenter : Vec3

/-- Lines 449-472: the shaft / head parameters from the current start,
end, direction, height and part size.  thickness and head_size are the
clamped values of lines 450-451; the head radius is further capped at
1.5 times the head depth (line 455); shaft depth is 75 percent and head
depth 30 percent of the segment height (lines 462 and 470). -/
noncomputable def arrowGeomOf (start end2 direction : Vec3)
    (height part_size : ℝ) : ArrowGeom :=
  { startPoint := start
    endPoint := end2
    height := height
    shaftRadius :=
      max ARROW_MIN_THICKNESS (min ARROW_MAX_THICKNESS (part_size * arrowThicknessRatio))
    shaftDepth := height * 0.75
    shaftCenter := start + (height * 0.375) • direction
    headRadius :=
      min (max ARROW_MIN_HEAD_SIZE (min ARROW_MAX_HEAD_SIZE (part_size * arrowHeadSizeRatio)))
        (height * 0.3 * 1.5)
    headDepth := height * 0.3
    headCenter := start + (height * 0.85) • direction }

/-- The minimum-length adjustment of lines 437-447, producing the
(end, direction, height) triple used by the geometry code, or `none`
when the original direction is (near) zero.  Note the source bug: the
recomputed end is `start + normalized_direction * height`, so the
segment keeps its original height instead of being extended to
min_arrow_length. -/
noncomputable def adjustedArrow (start end_ : Vec3) (min_arrow_length : ℝ) :
    Option (Vec3 × Vec3 × ℝ) :=
  if (end_ - start).length < min_arrow_length then
    if 1 / 1000000 < (end_ - start).length then
      some (start + (end_ - start).length • (end_ - start).normalized,
            start + (end_ - start).length • (end_ - start).normalized - start,
            (start + (end_ - start).length • (end_ - start).normalized - start).length)
    else none
  else some (end_, end_ - start, (end_ - start).length)

/-- create_arrow (lines 414-472).  Returns `none` for a near-zero-length
arrow or a zero original direction; otherwise runs the minimum-length
adjustment of lines 437-447 and builds the geometry. -/
noncomputable def create_arrow (start end_ : Vec3)
    (target_part : Option (ℚ × ℚ × ℚ)) : Option ArrowGeom :=
  if (end_ - start).length < 0.01 then none
  else
    (adjustedArrow start end_
        (((get_object_size target_part : ℚ) : ℝ) * ARROW_MIN_LENGTH_FACTOR)).map
      (fun t => arrowGeomOf start t.1 t.2.1 t.2.2
        ((get_object_size target_part : ℚ) : ℝ))

/-! ### frame_objects (lines 667-739)

A frameable object is modelled as `Option` of the nonempty list of its
world-space bound corners (`none` for an object without obtainable
bounds - hidden, or with a missing bound_box). -/

/-- All corner points contributed by the objects with obtainable
bounds. -/
def boundsPoints (objs : List (Option (Vec3 × List Vec3))) : List Vec3 :=
  ((objs.filterMap id).map (fun pr => pr.1 :: pr.2)).flatten

/-- One accumulation step of the min/max corner fold of lines 692-698. -/
noncomputable def bboxStep (acc : Option (Vec3 × Vec3)) (p : Vec3) :
    Option (Vec3 × Vec3) :=
  match acc with
  | none => some (p, p)
  | some (mn, mx) =>
    some (⟨min mn.x p.x, min mn.y p.y, min mn.z p.z⟩,
          ⟨max mx.x p.x, max mx.y p.y, max mx.z p.z⟩)

/-- The accumulated min and max corners; `none` plays the role of the
initial (+inf, -inf) accumulator, so it survives exactly when no valid
bounds were found. -/
noncomputable def accBounds (pts : List Vec3) : Option (Vec3 × Vec3) :=
  pts.foldl bboxStep none

/-- The fixed oblique camera offset direction of line 734. -/
noncomputable def cameraOffsetDir : Vec3 :=
  (Vec3.mk 0.8 (-0.8) 0.6).normalized

/-- frame_objects (lines 667-739): returns the new camera location.  An
empty target list returns the camera unchanged (early return, line 674);
when no bounds are obtainable the default center (0,0,0) and size 5.0
are used (lines 719-723); otherwise center, size, distance and position
follow lines 724-735. -/
noncomputable def frame_objects (cam : Vec3)
    (objs : List (Option (Vec3 × List Vec3))) : Vec3 :=
  match objs with
  | [] => cam
  | _ :: _ =>
    match accBounds (boundsPoints objs) with
    | some (mn, mx) =>
      ((1 : ℝ) / 2) • (mn + mx) +
        (max ((mx - mn).length) 0.5 * CAMERA_DISTANCE_FACTOR) • cameraOffsetDir
    | none =>
      Vec3.mk 0 0 0 + ((5.0 : ℝ) * CAMERA_DISTANCE_FACTOR) • cameraOffsetDir

/-! ### Metadata time estimate (main, lines 1192-1204) -/

/-- The caption of the final step entry appended after the loop. -/
def finalStepCaption : String := "Assembly complete."

/-- The steps list of the metadata: the per-step entries followed by the
final entry (lines 1192-1198), represented by their captions. -/
def stepsOfMetadata (step_data : List String) : List String :=
  step_data ++ [finalStepCaption]

/-- Lines 1200-1203: minutes estimate from the part count and the step
count excluding the final image. -/
def time_estimate_minutes (num_parts num_steps_total : ℕ) : ℕ :=
  max 5 (num_parts * 1 + (num_steps_total - 1) * 2)

/-- Line 1204: the formatted time_estimate field. -/
def time_estimate_field (num_parts num_steps_total : ℕ) : String :=
  toString (time_estimate_minutes num_parts num_steps_total) ++ " minutes"

/-! ### Helper lemmas -/

theorem Vec3.length_nonneg (v : Vec3) : 0 ≤ v.length :=
  Real.sqrt_nonneg _

@[simp] theorem Vec3.add_x (a b : Vec3) : (a + b).x = a.x + b.x := rfl

@[simp] theorem Vec3.add_y (a b : Vec3) : (a + b).y = a.y + b.y := rfl

@[simp] theorem Vec3.add_z (a b : Vec3) : (a + b).z = a.z + b.z := rfl

@[simp] theorem Vec3.sub_x (a b : Vec3) : (a - b).x = a.x - b.x := rfl

@[simp] theorem Vec3.sub_y (a b : Vec3) : (a - b).y = a.y - b.y := rfl

@[simp] theorem Vec3.sub_z (a b : Vec3) : (a - b).z = a.z - b.z := rfl

@[simp] theorem Vec3.smul_x (c : ℝ) (v : Vec3) : (c • v).x = c * v.x := rfl

@[simp] theorem Vec3.smul_y (c : ℝ) (v : Vec3) : (c • v).y = c * v.y := rfl

@[simp] theorem Vec3.smul_z (c : ℝ) (v : Vec3) : (c • v).z = c * v.z := rfl

/-- Compute a vector length from a square decomposition of the sum of
component squares. -/
theorem Vec3.length_eq (v : Vec3) (c : ℝ) (hc : 0 ≤ c)
    (h : v.x ^ 2 + v.y ^ 2 + v.z ^ 2 = c ^ 2) : v.length = c := by
  unfold Vec3.length
  rw [h, Real.sqrt_sq hc]

theorem Vec3.length_smul (c : ℝ) (v : Vec3) :
    (c • v).length = |c| * v.length := by
  unfold Vec3.length
  simp only [Vec3.smul_x, Vec3.smul_y, Vec3.smul_z]
  rw [show (c * v.x) ^ 2 + (c * v.y) ^ 2 + (c * v.z) ^ 2 =
      c ^ 2 * (v.x ^ 2 + v.y ^ 2 + v.z ^ 2) by ring]
  rw [Real.sqrt_mul (sq_nonneg c), Real.sqrt_sq_eq_abs]

/-- Above the 1e-6 guard, normalized produces a unit vector. -/
theorem Vec3.normalized_length (v : Vec3) (h : 1 / 1000000 < v.length) :
    v.normalized.length = 1 := by
  have hv : 0 < v.length := lt_trans (by norm_num) h
  unfold Vec3.normalized
  rw [if_pos h, Vec3.length_smul, abs_of_pos (by positivity)]
  field_simp

theorem stepStarts_zero (s : ℕ) (hs : 1 ≤ s) : stepStarts 0 s = [] := by
  unfold stepStarts
  have h : (0 + s - 1) / s = 0 := Nat.div_eq_of_lt (by omega)
  rw [h]
  rfl

theorem stepStarts_cons (n s : ℕ) (hs : 1 ≤ s) (hn : 1 ≤ n) :
    stepStarts n s = 0 :: (stepStarts (n - s) s).map (· + s) := by
  unfold stepStarts
  have h1 : (n + s - 1) / s = (n - 1) / s + 1 := by
    have h : n + s - 1 = (n - 1) + s := by omega
    rw [h, Nat.add_div_right _ (by omega)]
  have h2 : (n - s + s - 1) / s = (n - 1) / s := by
    rcases le_or_lt s n with h | h
    · have e : n - s + s - 1 = n - 1 := by omega
      rw [e]
    · have e1 : n - s = 0 := by omega
      rw [e1, Nat.div_eq_of_lt (by omega), Nat.div_eq_of_lt (by omega)]
  rw [h1, h2, List.range_succ_eq_map]
  simp only [List.map_cons, List.map_map, Nat.zero_mul]
  congr 1
  apply List.map_congr_left
  intro x _
  simp [Function.comp, Nat.succ_mul]

theorem stepNewParts_shift (n s i : ℕ) (hsn : s ≤ n) :
    stepNewParts n s (i + s) = (stepNewParts (n - s) s i).map (· + s) := by
  unfold stepNewParts
  have hlen : min (i + s + s) n - (i + s) = min (i + s) (n - s) - i := by omega
  rw [hlen, Nat.add_comm i s, ← List.map_add_range']
  apply List.map_congr_left
  intro x _
  omega

theorem stepSlices_cons (n s : ℕ) (hs : 1 ≤ s) (hn : 1 ≤ n) (hsn : s ≤ n) :
    stepSlices n s =
      List.range (min s n) :: (stepSlices (n - s) s).map (List.map (· + s)) := by
  unfold stepSlices
  rw [stepStarts_cons n s hs hn]
  simp only [List.map_cons, List.map_map]
  congr 1
  · show stepNewParts n s 0 = List.range (min s n)
    unfold stepNewParts
    rw [List.range_eq_range']
    congr 1
    omega
  · apply List.map_congr_left
    intro i _
    show stepNewParts n s (i + s) = List.map (· + s) (stepNewParts (n - s) s i)
    exact stepNewParts_shift n s i hsn

theorem stepSlices_small (n s : ℕ) (hn : 1 ≤ n) (hns : n < s) :
    stepSlices n s = [List.range n] := by
  unfold stepSlices
  rw [stepStarts_cons n s (by omega) hn]
  have e : n - s = 0 := by omega
  rw [e, stepStarts_zero s (by omega)]
  simp only [List.map_nil, List.map_cons]
  congr 1
  unfold stepNewParts
  rw [List.range_eq_range']
  congr 1
  omega

theorem stepSlices_zero (n s : ℕ) (hs : 1 ≤ s) (hn : n = 0) :
    stepSlices n s = [] := by
  subst hn
  unfold stepSlices
  rw [stepStarts_zero s hs]
  rfl

theorem stepSlices_flatten (s : ℕ) (hs : 1 ≤ s) :
    ∀ n, (stepSlices n s).flatten = List.range n := by
  intro n
  induction n using Nat.strong_induction_on with
  | _ n ih =>
    rcases Nat.eq_zero_or_pos n with hn | hn
    · rw [stepSlices_zero n s hs hn, hn]
      rfl
    · rcases lt_or_le n s with hns | hsn
      · rw [stepSlices_small n s hn hns]
        simp
      · rw [stepSlices_cons n s hs hn hsn, List.flatten_cons]
        have hmap : ((stepSlices (n - s) s).map (List.map (· + s))).flatten =
            ((stepSlices (n - s) s).flatten).map (· + s) :=
          (List.map_flatten _ _).symm
        rw [hmap, ih (n - s) (by omega), min_eq_left hsn]
        have hsplit : List.range n =
            List.range s ++ (List.range (n - s)).map (s + ·) := by
          rw [← List.range_add]
          congr 1
          omega
        rw [hsplit]
        congr 1
        apply List.map_congr_left
        intro x _
        omega

theorem assembledBefore_eq (s : ℕ) (hs : 1 ≤ s) :
    ∀ t n, assembledBefore n s t = List.range (min (t * s) n) := by
  intro t
  induction t with
  | zero =>
    intro n
    simp [assembledBefore]
  | succ t ih =>
    intro n
    rcases Nat.eq_zero_or_pos n with hn | hn
    · rw [assembledBefore, stepSlices_zero n s hs hn, hn]
      simp
    · rcases lt_or_le n s with hns | hsn
      · rw [assembledBefore, stepSlices_small n s hn hns, List.take_succ_cons,
          List.take_nil, List.flatten_cons, List.flatten_nil, List.append_nil]
        have h2 : min ((t + 1) * s) n = n :=
          min_eq_right (le_trans hns.le (Nat.succ_mul t s ▸ Nat.le_add_left s (t * s)))
        rw [h2]
      · rw [assembledBefore, stepSlices_cons n s hs hn hsn, List.take_succ_cons,
          List.flatten_cons]
        have hmap : (((stepSlices (n - s) s).map (List.map (· + s))).take t).flatten =
            (((stepSlices (n - s) s).take t).flatten).map (· + s) := by
          rw [← List.map_take]
          exact (List.map_flatten _ _).symm
        rw [hmap]
        have ihn := ih (n - s)
        rw [assembledBefore] at ihn
        rw [ihn, min_eq_left hsn]
        have hsplit : List.range (min ((t + 1) * s) n) =
            List.range s ++ (List.range (min (t * s) (n - s))).map (s + ·) := by
          rw [← List.range_add]
          congr 1
          rw [Nat.succ_mul t s]
          generalize t * s = u
          omega
        rw [hsplit]
        congr 1
        apply List.map_congr_left
        intro x _
        omega

/-! ### C3: step partitioning -/

/-- C3: for totalParts ≥ 1 and targetStepCount ≥ 1 the partitioner uses
stepSize = ceil(totalParts / targetStepCount) with minimum 1; the new
parts of the step starting at i are exactly the indices of
[i, min(i + stepSize, totalParts)); the parts assembled when step number
t begins are exactly the indices below its start t * stepSize; and the
step slices cover every part index exactly once, in input order, with no
gaps or overlaps (their concatenation is [0, 1, ..., totalParts-1]). -/
theorem step_partition (n T : ℕ) (hn : 1 ≤ n) (hT : 1 ≤ T) :
    step_size n T = max 1 ((n + T - 1) / T) ∧
    1 ≤ step_size n T ∧
    (∀ i x, x ∈ stepNewParts n (step_size n T) i ↔
      i ≤ x ∧ x < min (i + step_size n T) n) ∧
    (∀ t, assembledBefore n (step_size n T) t =
      List.range (min (t * step_size n T) n)) ∧
    (stepSlices n (step_size n T)).flatten = List.range n := by
  have hdef : step_size n T = max 1 ((n + T - 1) / T) := by
    rw [step_size, if_pos ⟨hT, hn⟩]
  have hs : 1 ≤ step_size n T := by
    rw [hdef]
    exact le_max_left 1 _
  refine ⟨hdef, hs, ?_, fun t => assembledBefore_eq (step_size n T) hs t n,
    stepSlices_flatten (step_size n T) hs n⟩
  intro i x
  unfold stepNewParts
  rw [List.mem_range'_1]
  omega

/-- Witness for step_partition at 7 parts and 3 target steps: the step
size is 3 and the slices concatenate back to [0, ..., 6]. -/
theorem step_partition_witness :
    step_size 7 3 = max 1 ((7 + 3 - 1) / 3) ∧
    (stepSlices 7 (step_size 7 3)).flatten = List.range 7 :=
  ⟨(step_partition 7 3 (by norm_num) (by norm_num)).1,
   (step_partition 7 3 (by norm_num) (by norm_num)).2.2.2.2⟩

/-! ### C2: the (0,0,2) flat-sliver scenario -/

/-- C2 counterexample: for bounding-box dimensions (0, 0, 2) the size
estimator does NOT return approximately 1e-6 - it returns a value that
is at least 1, namely the lone non-degenerate dimension 2. -/
theorem get_object_size_sliver_ne_epsilon :
    get_object_size (some (0, 0, 2)) ≠ 1 / 1000000 ∧
    1 ≤ get_object_size (some (0, 0, 2)) := by
  constructor <;>
    norm_num [get_object_size, List.filter_cons, List.filter_nil]

/-- C2 amended: for bounding-box dimensions (0, 0, 2) the size estimator
returns 2, the mean of the dimensions that survive the epsilon filter
(here just the single non-degenerate axis), which is strictly positive -
the 1e-6 branch fires only when every dimension is degenerate. -/
theorem get_object_size_sliver_value :
    get_object_size (some (0, 0, 2)) = 2 ∧
    (0 : ℚ) < get_object_size (some (0, 0, 2)) := by
  constructor <;>
    norm_num [get_object_size, List.filter_cons, List.filter_nil]

/-! ### C6: get_object_size specification -/

/-- C6: get_object_size returns the arithmetic mean of the bounding-box
dimensions after excluding every dimension not exceeding the 1e-6
epsilon; the fixed tiny epsilon when all dimensions are degenerate; the
fixed default 1.0 when the object is invalid or missing; and the result
is strictly positive in every case. -/
theorem get_object_size_spec (o : Option (ℚ × ℚ × ℚ)) :
    0 < get_object_size o ∧
    get_object_size none = 1 ∧
    ∀ dx dy dz, o = some (dx, dy, dz) →
      ((∀ d ∈ [dx, dy, dz], d ≤ 1 / 1000000) →
        get_object_size o = 1 / 1000000) ∧
      ((∃ d ∈ [dx, dy, dz], 1 / 1000000 < d) →
        get_object_size o =
          ([dx, dy, dz].filter (fun d => 1 / 1000000 < d)).sum /
            ([dx, dy, dz].filter (fun d => 1 / 1000000 < d)).length) := by
  refine ⟨?_, rfl, ?_⟩
  · match o with
    | none =>
      norm_num [get_object_size]
    | some (dx, dy, dz) =>
      simp only [get_object_size]
      split_ifs with h
      · norm_num
      · apply div_pos
        · apply List.sum_pos
          · intro x hx
            have hx' := (List.mem_filter.mp hx).2
            have : (1 : ℚ) / 1000000 < x := by
              simpa using hx'
            linarith
          · exact h
        · exact_mod_cast List.length_pos.mpr h
  · intro dx dy dz ho
    subst ho
    simp only [get_object_size]
    constructor
    · intro hall
      rw [if_pos]
      rw [List.filter_eq_nil_iff]
      intro a ha
      simpa using not_lt.mpr (hall a ha)
    · rintro ⟨d, hd, hdlt⟩
      rw [if_neg]
      exact List.ne_nil_of_mem (List.mem_filter.mpr ⟨hd, by simpa using hdlt⟩)

/-- Witness for get_object_size_spec: the default branch at `none` and
positivity at a concrete flat part. -/
theorem get_object_size_spec_witness :
    get_object_size none = 1 ∧ 0 < get_object_size (some (0, 0, 2)) ∧
    get_object_size (some ((1 : ℚ) / 10000000, 0, 0)) = 1 / 1000000 :=
  ⟨(get_object_size_spec none).2.1,
   (get_object_size_spec (some (0, 0, 2))).1,
   ((get_object_size_spec (some (1 / 10000000, 0, 0))).2.2
      (1 / 10000000) 0 0 rfl).1 (by norm_num)⟩

/-! ### C10: metadata time estimate -/

/-- C10: the time_estimate field equals max(5, numParts * 1 +
numAssemblySteps * 2) minutes, where numAssemblySteps counts the step
entries excluding the final "Assembly complete." entry. -/
theorem time_estimate_spec (num_parts : ℕ) (step_data : List String) :
    time_estimate_minutes num_parts (stepsOfMetadata step_data).length =
      max 5 (num_parts * 1 + step_data.length * 2) ∧
    time_estimate_field num_parts (stepsOfMetadata step_data).length =
      toString (max 5 (num_parts * 1 + step_data.length * 2)) ++ " minutes" := by
  have h : (stepsOfMetadata step_data).length - 1 = step_data.length := by
    simp [stepsOfMetadata]
  exact ⟨by simp [time_estimate_minutes, h],
         by simp [time_estimate_field, time_estimate_minutes, h]⟩

/-! ### C4: reset-to-base invariants of the step loop -/

/-- C4: the reset phase puts every part exactly at its recorded base
position; the explosion phase leaves every already-assembled part (index
below the step start) exactly at its base position; and neither one step
nor the whole step loop ever changes a recorded base position. -/
theorem step_reset_invariant (n i : ℕ) (c : Vec3) (size : ℕ → ℝ)
    (st : SceneState) (starts : List ℕ) :
    (∀ j, (resetToBase st).pos j = st.base j) ∧
    (∀ j, j < i → (stepCompute n i c size st).pos j = st.base j) ∧
    (stepCompute n i c size st).base = st.base ∧
    (runSteps n c size st starts).base = st.base := by
  refine ⟨fun j => rfl, ?_, rfl, ?_⟩
  · intro j hj
    simp [stepCompute, explodeStep, resetToBase, is_assembled, hj]
  · induction starts generalizing st with
    | nil => rfl
    | cons a l ih =>
      show (runSteps n c size (stepCompute n a c size st) l).base = st.base
      exact ih (stepCompute n a c size st)

/-- Witness for step_reset_invariant: an assembled part (index 1, step
start 2) sits at its base position after the step computation. -/
theorem step_reset_invariant_witness :
    (stepCompute 3 2 (Vec3.mk 0 0 0) (fun _ => 1)
        ⟨fun _ => Vec3.mk 0 0 0, fun _ => Vec3.mk 1 1 1⟩).pos 1 =
      (⟨fun _ => Vec3.mk 0 0 0, fun _ => Vec3.mk 1 1 1⟩ : SceneState).base 1 :=
  (step_reset_invariant 3 2 (Vec3.mk 0 0 0) (fun _ => 1)
      ⟨fun _ => Vec3.mk 0 0 0, fun _ => Vec3.mk 1 1 1⟩ []).2.1 1 (by norm_num)

/-! ### C5: the exploded position of a not-yet-assembled part -/

/-- The raw explode direction always passes the 1e-6 length guard: the
outward direction is at least 0.1 long and the oblique replacement has
length sqrt 1.25; the (0,0,1) fallback of line 1021 is dead code. -/
theorem explodeDirRaw_guard (j : ℕ) (base c : Vec3) :
    1 / 1000000 < (explodeDirRaw j base c).length := by
  unfold explodeDirRaw
  split_ifs with h
  · have h1 : (1 : ℝ) ≤
        (Vec3.mk (Real.cos ((j : ℝ) * 0.5) * 0.5)
          (Real.sin ((j : ℝ) * 0.5) * 0.5) 1.0).length := by
      have hsum : (1 : ℝ) ≤ (Real.cos ((j : ℝ) * 0.5) * 0.5) ^ 2 +
          (Real.sin ((j : ℝ) * 0.5) * 0.5) ^ 2 + (1.0 : ℝ) ^ 2 := by
        nlinarith [sq_nonneg (Real.cos ((j : ℝ) * 0.5) * 0.5),
          sq_nonneg (Real.sin ((j : ℝ) * 0.5) * 0.5)]
      calc (1 : ℝ) = Real.sqrt 1 := Real.sqrt_one.symm
        _ ≤ _ := Real.sqrt_le_sqrt hsum
    exact lt_of_lt_of_le (by norm_num) h1
  · have h3 := not_lt.mp h
    linarith

/-- The explode direction is always a unit vector. -/
theorem explodeDir_length (j : ℕ) (base c : Vec3) :
    (explodeDir j base c).length = 1 := by
  unfold explodeDir
  rw [if_pos (explodeDirRaw_guard j base c)]
  exact Vec3.normalized_length _ (explodeDirRaw_guard j base c)

/-- C5 counterexample: the vertical lift is NOT proportional to
size(part) × remainingFactor.  With two parts, base (1,0,0), assembled
center at the origin and part size 1, the explode direction is the unit
x vector so the z component isolates the lift; the claimed form
basePos.z + direction.z × distance + c × (size × remainingFactor) would
force c = 1.28 at j = 0 but c = 1.92 at j = 1. -/
theorem explode_lift_not_proportional :
    ¬ ∃ co : ℝ,
      (explodedPos 2 0 (Vec3.mk 1 0 0) (Vec3.mk 0 0 0) 1).z =
        (Vec3.mk 1 0 0).z +
          explodeDistance 2 0 * (explodeDir 0 (Vec3.mk 1 0 0) (Vec3.mk 0 0 0)).z +
          co * (1 * partsRemainingFactor 2 0) ∧
      (explodedPos 2 1 (Vec3.mk 1 0 0) (Vec3.mk 0 0 0) 1).z =
        (Vec3.mk 1 0 0).z +
          explodeDistance 2 1 * (explodeDir 1 (Vec3.mk 1 0 0) (Vec3.mk 0 0 0)).z +
          co * (1 * partsRemainingFactor 2 1) := by
  have hsub : Vec3.mk 1 0 0 - Vec3.mk 0 0 0 = Vec3.mk 1 0 0 := by
    ext <;> simp
  have hlen : (Vec3.mk (1 : ℝ) 0 0).length = 1 :=
    Vec3.length_eq _ 1 (by norm_num) (by norm_num)
  have hdir : ∀ j : ℕ,
      explodeDir j (Vec3.mk 1 0 0) (Vec3.mk 0 0 0) = Vec3.mk 1 0 0 := by
    intro j
    have hraw : explodeDirRaw j (Vec3.mk 1 0 0) (Vec3.mk 0 0 0) = Vec3.mk 1 0 0 := by
      unfold explodeDirRaw
      rw [hsub, hlen, if_neg (show ¬((1 : ℝ) < 0.1) by norm_num)]
    unfold explodeDir
    rw [hraw, hlen, if_pos (show (1 : ℝ) / 1000000 < 1 by norm_num)]
    unfold Vec3.normalized
    rw [hlen, if_pos (show (1 : ℝ) / 1000000 < 1 by norm_num)]
    ext <;> simp
  have hrf0 : partsRemainingFactor 2 0 = 1 := by
    rw [partsRemainingFactor, if_pos (by norm_num)]
    norm_num
  have hrf1 : partsRemainingFactor 2 1 = 1 / 2 := by
    rw [partsRemainingFactor, if_pos (by norm_num)]
    norm_num
  have hz0 : (explodedPos 2 0 (Vec3.mk 1 0 0) (Vec3.mk 0 0 0) 1).z = 1.28 := by
    simp only [explodedPos, Vec3.add_z, Vec3.smul_z, hdir 0, hrf0]
    norm_num [EXPLODE_FACTOR]
  have hz1 : (explodedPos 2 1 (Vec3.mk 1 0 0) (Vec3.mk 0 0 0) 1).z = 0.96 := by
    simp only [explodedPos, Vec3.add_z, Vec3.smul_z, hdir 1, hrf1]
    norm_num [EXPLODE_FACTOR]
  rintro ⟨co, h1, h2⟩
  rw [hz0, hdir 0, hrf0] at h1
  rw [hz1, hdir 1, hrf1] at h2
  simp only [Vec3.smul_z] at h1 h2
  norm_num at h1 h2
  linarith

/-- C5 amended: the exploded position equals basePos[j] plus
explodeDirection (always a unit vector; the normalized outward direction
when the part sits at least 0.1 from the assembled center) times
distance = explodeFactor × (1 + remainingFactor × 4) capped at the
maximum explode distance, plus a vertical z lift equal to
explodeFactor × 0.8 × (1 + remainingFactor) × size(part) - i.e.
proportional to size × (1 + remainingFactor), not to
size × remainingFactor - with remainingFactor = (totalParts − j) /
totalParts. -/
theorem explodedPos_formula (n j : ℕ) (base c : Vec3) (size : ℝ)
    (hn : 0 < n) :
    explodedPos n j base c size =
      Vec3.mk (base.x + explodeDistance n j * (explodeDir j base c).x)
        (base.y + explodeDistance n j * (explodeDir j base c).y)
        (base.z + explodeDistance n j * (explodeDir j base c).z
          + EXPLODE_FACTOR * 0.8 * (1 + partsRemainingFactor n j) * size) ∧
    partsRemainingFactor n j = ((n : ℝ) - (j : ℝ)) / (n : ℝ) ∧
    explodeDistance n j =
      min (EXPLODE_FACTOR * (1 + partsRemainingFactor n j * 4))
        MAX_EXPLODE_DISTANCE ∧
    explodeDistance n j ≤ MAX_EXPLODE_DISTANCE ∧
    (explodeDir j base c).length = 1 ∧
    (0.1 ≤ (base - c).length →
      explodeDir j base c = (base - c).normalized) := by
  refine ⟨?_, ?_, rfl, min_le_right _ _, explodeDir_length j base c, ?_⟩
  · ext <;> simp [explodedPos]
  · rw [partsRemainingFactor, if_pos hn]
  · intro h0
    unfold explodeDir
    rw [if_pos (explodeDirRaw_guard j base c)]
    have hraw : explodeDirRaw j base c = base - c := by
      unfold explodeDirRaw
      rw [if_neg (not_lt.mpr h0)]
    rw [hraw]

/-- Witness for explodedPos_formula: two parts, part 0, base (1,0,0),
center at the origin, size 1. -/
theorem explodedPos_formula_witness :
    0 < 2 ∧
    explodeDistance 2 0 ≤ MAX_EXPLODE_DISTANCE ∧
    (explodeDir 0 (Vec3.mk 1 0 0) (Vec3.mk 0 0 0)).length = 1 :=
  ⟨by norm_num,
   (explodedPos_formula 2 0 (Vec3.mk 1 0 0) (Vec3.mk 0 0 0) 1 (by norm_num)).2.2.2.1,
   (explodedPos_formula 2 0 (Vec3.mk 1 0 0) (Vec3.mk 0 0 0) 1
      (by norm_num)).2.2.2.2.1⟩

/-! ### C7: arrow geometry proportions -/

/-- C7: for |end - start| ≥ 0.01 and part size > 0, create_arrow returns
geometry whose shaft depth is 75 percent and head depth 30 percent of
the (possibly adjusted) segment length - so shaft depth plus head depth
is 1.05 times the segment length, the slight overlap by design - whose
thickness is size × thicknessRatio clamped to
[ARROW_MIN_THICKNESS, ARROW_MAX_THICKNESS], and whose head radius is
size × headSizeRatio clamped to [ARROW_MIN_HEAD_SIZE,
ARROW_MAX_HEAD_SIZE] and further capped at 1.5 × head depth, hence
never exceeding 1.5 × head depth. -/
theorem create_arrow_geometry (start end_ : Vec3)
    (part : Option (ℚ × ℚ × ℚ))
    (h1 : 0.01 ≤ (end_ - start).length)
    (h2 : 0 < get_object_size part) :
    ∃ g : ArrowGeom, create_arrow start end_ part = some g ∧
      g.height = (g.endPoint - start).length ∧
      g.shaftDepth = g.height * 0.75 ∧
      g.headDepth = g.height * 0.3 ∧
      g.shaftDepth + g.headDepth = g.height * 1.05 ∧
      g.shaftRadius = max ARROW_MIN_THICKNESS (min ARROW_MAX_THICKNESS
        (((get_object_size part : ℚ) : ℝ) * arrowThicknessRatio)) ∧
      g.headRadius = min (max ARROW_MIN_HEAD_SIZE (min ARROW_MAX_HEAD_SIZE
        (((get_object_size part : ℚ) : ℝ) * arrowHeadSizeRatio)))
        (g.headDepth * 1.5) ∧
      g.headRadius ≤ 1.5 * g.headDepth := by
  unfold create_arrow
  rw [if_neg (not_lt.mpr h1)]
  unfold adjustedArrow
  by_cases hmin : (end_ - start).length <
      ((get_object_size part : ℚ) : ℝ) * ARROW_MIN_LENGTH_FACTOR
  · rw [if_pos hmin,
      if_pos (show (1 : ℝ) / 1000000 < (end_ - start).length from
        lt_of_lt_of_le (by norm_num) h1)]
    refine ⟨_, rfl, rfl, rfl, rfl, by simp only [arrowGeomOf]; ring, rfl, rfl, ?_⟩
    exact le_trans (min_le_right _ _) (le_of_eq (mul_comm _ _))
  · rw [if_neg hmin]
    refine ⟨_, rfl, rfl, rfl, rfl, by simp only [arrowGeomOf]; ring, rfl, rfl, ?_⟩
    exact le_trans (min_le_right _ _) (le_of_eq (mul_comm _ _))

/-- Witness for create_arrow_geometry: start at the origin, end (0,0,5),
part of dimensions (1,2,3) (size 2). -/
theorem create_arrow_geometry_witness :
    (0.01 : ℝ) ≤ (Vec3.mk 0 0 5 - Vec3.mk 0 0 0).length ∧
    0 < get_object_size (some (1, 2, 3)) ∧
    ∃ g : ArrowGeom,
      create_arrow (Vec3.mk 0 0 0) (Vec3.mk 0 0 5) (some (1, 2, 3)) = some g ∧
      g.shaftDepth = g.height * 0.75 ∧ g.headRadius ≤ 1.5 * g.headDepth := by
  have hsub : Vec3.mk 0 0 5 - Vec3.mk 0 0 0 = Vec3.mk 0 0 5 := by
    ext <;> simp
  have hlen : (Vec3.mk (0 : ℝ) 0 5).length = 5 :=
    Vec3.length_eq _ 5 (by norm_num) (by norm_num)
  have h1 : (0.01 : ℝ) ≤ (Vec3.mk 0 0 5 - Vec3.mk 0 0 0).length := by
    rw [hsub, hlen]
    norm_num
  have h2 : 0 < get_object_size (some ((1 : ℚ), 2, 3)) := by
    norm_num [get_object_size, List.filter_cons, List.filter_nil, List.cons_ne_nil]
  obtain ⟨g, hg, hh, hsd, hhd, hsum, hsr, hhr, hle⟩ :=
    create_arrow_geometry (Vec3.mk 0 0 0) (Vec3.mk 0 0 5) (some (1, 2, 3)) h1 h2
  exact ⟨h1, h2, g, hg, hsd, hle⟩

/-! ### C1: the minimum-length adjustment is a no-op (code bug) -/

/-- C1 (code bug): with start (0,0,0), end (0,0,0.1) and a part of
dimensions (1,1,1) - so size 1 and minLength 0.5 - the initial height
0.1 is in [0.01, minLength) and the direction is non-zero, so the
adjustment branch of lines 437-444 fires; but the recomputed segment
still has height 0.1, not minLength = 0.5: line 442 multiplies the
normalized direction by `height` instead of `min_arrow_length`, so the
end point and the height are unchanged, contradicting the comment
"ensure minimum length" and the spec. -/
theorem create_arrow_min_length_bug :
    ∃ g : ArrowGeom,
      create_arrow (Vec3.mk 0 0 0) (Vec3.mk 0 0 0.1) (some (1, 1, 1)) = some g ∧
      g.height = 0.1 ∧
      g.endPoint = Vec3.mk 0 0 0.1 ∧
      ((get_object_size (some (1, 1, 1)) : ℚ) : ℝ) * ARROW_MIN_LENGTH_FACTOR = 0.5 ∧
      g.height < ((get_object_size (some (1, 1, 1)) : ℚ) : ℝ) * ARROW_MIN_LENGTH_FACTOR := by
  have hsize : get_object_size (some ((1 : ℚ), 1, 1)) = 1 := by
    norm_num [get_object_size, List.filter_cons, List.filter_nil, List.cons_ne_nil]
  have hcast : ((get_object_size (some ((1 : ℚ), 1, 1)) : ℚ) : ℝ) = 1 := by
    rw [hsize]
    norm_num
  have hsub : Vec3.mk 0 0 0.1 - Vec3.mk 0 0 0 = Vec3.mk 0 0 0.1 := by
    ext <;> simp
  have hlen : (Vec3.mk (0 : ℝ) 0 0.1).length = 0.1 :=
    Vec3.length_eq _ 0.1 (by norm_num) (by norm_num)
  have hnorm : (Vec3.mk (0 : ℝ) 0 0.1).normalized = Vec3.mk 0 0 1 := by
    unfold Vec3.normalized
    rw [hlen, if_pos (by norm_num)]
    ext <;> norm_num
  have hadj : adjustedArrow (Vec3.mk 0 0 0) (Vec3.mk 0 0 0.1)
      (((get_object_size (some ((1 : ℚ), 1, 1)) : ℚ) : ℝ) * ARROW_MIN_LENGTH_FACTOR) =
      some (Vec3.mk 0 0 0.1, Vec3.mk 0 0 0.1, 0.1) := by
    unfold adjustedArrow
    rw [hsub, hlen, hnorm, hcast]
    rw [if_pos (show (0.1 : ℝ) < 1 * ARROW_MIN_LENGTH_FACTOR by
      norm_num [ARROW_MIN_LENGTH_FACTOR])]
    rw [if_pos (show (1 : ℝ) / 1000000 < 0.1 by norm_num)]
    have hv : Vec3.mk 0 0 0 + (0.1 : ℝ) • Vec3.mk 0 0 1 = Vec3.mk 0 0 0.1 := by
      ext <;> norm_num
    rw [hv, hsub, hlen]
  refine ⟨arrowGeomOf (Vec3.mk 0 0 0) (Vec3.mk 0 0 0.1) (Vec3.mk 0 0 0.1) 0.1
    ((get_object_size (some ((1 : ℚ), 1, 1)) : ℚ) : ℝ), ?_, rfl, rfl, ?_, ?_⟩
  · unfold create_arrow
    rw [hsub, hlen, if_neg (show ¬((0.1 : ℝ) < 0.01) by norm_num), hadj]
    rfl
  · rw [hcast]
    norm_num [ARROW_MIN_LENGTH_FACTOR]
  · rw [hcast]
    norm_num [arrowGeomOf, ARROW_MIN_LENGTH_FACTOR]

/-! ### C8 and C9: camera framing -/

/-- Folding the min/max accumulation from an initial pair only shrinks
the minimum corner, only grows the maximum corner, and bounds every
point of the list. -/
theorem bboxStep_fold (ps : List Vec3) :
    ∀ mn mx : Vec3, ∃ mn2 mx2 : Vec3,
      ps.foldl bboxStep (some (mn, mx)) = some (mn2, mx2) ∧
      Vec3.le mn2 mn ∧ Vec3.le mx mx2 ∧
      ∀ p ∈ ps, Vec3.le mn2 p ∧ Vec3.le p mx2 := by
  induction ps with
  | nil =>
    intro mn mx
    exact ⟨mn, mx, rfl, ⟨le_refl _, le_refl _, le_refl _⟩,
      ⟨le_refl _, le_refl _, le_refl _⟩, by simp⟩
  | cons p ps ih =>
    intro mn mx
    obtain ⟨mn2, mx2, hfold, hmn, hmx, hall⟩ :=
      ih (Vec3.mk (min mn.x p.x) (min mn.y p.y) (min mn.z p.z))
        (Vec3.mk (max mx.x p.x) (max mx.y p.y) (max mx.z p.z))
    obtain ⟨h1, h2, h3⟩ := hmn
    obtain ⟨g1, g2, g3⟩ := hmx
    refine ⟨mn2, mx2, hfold, ?_, ?_, ?_⟩
    · exact ⟨le_trans h1 (min_le_left _ _), le_trans h2 (min_le_left _ _),
        le_trans h3 (min_le_left _ _)⟩
    · exact ⟨le_trans (le_max_left _ _) g1, le_trans (le_max_left _ _) g2,
        le_trans (le_max_left _ _) g3⟩
    · intro q hq
      rcases List.mem_cons.mp hq with h | h
      · subst h
        exact ⟨⟨le_trans h1 (min_le_right _ _), le_trans h2 (min_le_right _ _),
            le_trans h3 (min_le_right _ _)⟩,
          ⟨le_trans (le_max_right _ _) g1, le_trans (le_max_right _ _) g2,
            le_trans (le_max_right _ _) g3⟩⟩
      · exact hall q h

/-- On a nonempty point list the accumulated bounds exist and bound
every point. -/
theorem accBounds_cons (p : Vec3) (ps : List Vec3) :
    ∃ mn mx : Vec3, accBounds (p :: ps) = some (mn, mx) ∧
      ∀ q ∈ p :: ps, Vec3.le mn q ∧ Vec3.le q mx := by
  obtain ⟨mn, mx, hfold, hmn, hmx, hall⟩ := bboxStep_fold ps p p
  refine ⟨mn, mx, hfold, ?_⟩
  intro q hq
  rcases List.mem_cons.mp hq with h | h
  · subst h
    exact ⟨hmn, hmx⟩
  · exact hall q h

/-- C8: for a nonempty object list with obtainable bounds, frame_objects
accumulates componentwise min/max corners bounding every contributed
corner point, and places the camera at center + normalize((0.8, -0.8,
0.6)) × distance where center is the midpoint of the two corners,
distance = size × the camera distance factor, and size is the Euclidean
length of (max − min) floored at 0.5; the offset direction is the same
fixed constant for every frame. -/
theorem frame_objects_formula (cam : Vec3)
    (objs : List (Option (Vec3 × List Vec3)))
    (hne : objs ≠ []) (hb : boundsPoints objs ≠ []) :
    ∃ mn mx : Vec3, accBounds (boundsPoints objs) = some (mn, mx) ∧
      (∀ p ∈ boundsPoints objs, Vec3.le mn p ∧ Vec3.le p mx) ∧
      frame_objects cam objs =
        ((1 : ℝ) / 2) • (mn + mx) +
          (max ((mx - mn).length) 0.5 * CAMERA_DISTANCE_FACTOR) •
            cameraOffsetDir := by
  cases objs with
  | nil => exact absurd rfl hne
  | cons o os =>
    obtain ⟨p, ps, hps⟩ : ∃ p ps, boundsPoints (o :: os) = p :: ps := by
      cases h : boundsPoints (o :: os) with
      | nil => exact absurd h hb
      | cons p ps => exact ⟨p, ps, rfl⟩
    obtain ⟨mn, mx, hacc, hall⟩ := accBounds_cons p ps
    refine ⟨mn, mx, ?_, ?_, ?_⟩
    · rw [hps]
      exact hacc
    · rw [hps]
      exact hall
    · show frame_objects cam (o :: os) = _
      unfold frame_objects
      rw [hps, hacc]

/-- C9 counterexample: with a nonempty object list none of whose
members has obtainable bounds, frame_objects is NOT a no-op - the
camera is repositioned from the default center using size 5.0. -/
theorem frame_objects_moves_camera_without_bounds :
    frame_objects (Vec3.mk 0 0 0) [none] ≠ Vec3.mk 0 0 0 := by
  have hval : frame_objects (Vec3.mk 0 0 0) [none] =
      Vec3.mk 0 0 0 + ((5.0 : ℝ) * CAMERA_DISTANCE_FACTOR) • cameraOffsetDir :=
    rfl
  rw [hval]
  intro hcontra
  have hz := congrArg Vec3.z hcontra
  simp only [Vec3.add_z, Vec3.smul_z] at hz
  have h1 : (1 : ℝ) ≤ (Vec3.mk (0.8 : ℝ) (-0.8) 0.6).length := by
    have hsum : (1 : ℝ) ≤ (0.8 : ℝ) ^ 2 + (-0.8 : ℝ) ^ 2 + (0.6 : ℝ) ^ 2 := by
      norm_num
    calc (1 : ℝ) = Real.sqrt 1 := Real.sqrt_one.symm
      _ ≤ _ := Real.sqrt_le_sqrt hsum
  have hoz : 0 < cameraOffsetDir.z := by
    unfold cameraOffsetDir Vec3.normalized
    rw [if_pos (lt_of_lt_of_le (by norm_num) h1)]
    simp only [Vec3.smul_z]
    have hpos : (0 : ℝ) < (Vec3.mk (0.8 : ℝ) (-0.8) 0.6).length :=
      lt_of_lt_of_le (by norm_num) h1
    exact mul_pos (div_pos one_pos hpos) (by norm_num)
  norm_num [CAMERA_DISTANCE_FACTOR] at hz
  linarith

/-- C9 amended: frame_objects never raises (it is a total function); an
empty object list is a no-op that leaves the camera unchanged; but a
nonempty list with no obtainable bounds is NOT a no-op - the camera is
repositioned using the default center (0,0,0) and size 5.0. -/
theorem frame_objects_failsoft (cam : Vec3)
    (objs : List (Option (Vec3 × List Vec3))) :
    frame_objects cam [] = cam ∧
    (objs ≠ [] → (∀ o ∈ objs, o = none) →
      frame_objects cam objs =
        Vec3.mk 0 0 0 + ((5.0 : ℝ) * CAMERA_DISTANCE_FACTOR) • cameraOffsetDir) := by
  refine ⟨rfl, ?_⟩
  intro hne hall
  have hbp : boundsPoints objs = [] := by
    unfold boundsPoints
    have hfm : objs.filterMap id = [] := by
      rw [List.filterMap_eq_nil_iff]
      intro a ha
      rw [hall a ha]
      rfl
    rw [hfm]
    rfl
  cases objs with
  | nil => exact absurd rfl hne
  | cons o os =>
    show frame_objects cam (o :: os) = _
    unfold frame_objects
    rw [hbp]
    rfl

/-- Witness for frame_objects_failsoft: camera (1,2,3), object list with
a single bounds-less object. -/
theorem frame_objects_failsoft_witness :
    frame_objects (Vec3.mk 1 2 3) [] = Vec3.mk 1 2 3 ∧
    frame_objects (Vec3.mk 1 2 3) [none] =
      Vec3.mk 0 0 0 + ((5.0 : ℝ) * CAMERA_DISTANCE_FACTOR) • cameraOffsetDir :=
  ⟨(frame_objects_failsoft (Vec3.mk 1 2 3) [none]).1,
   (frame_objects_failsoft (Vec3.mk 1 2 3) [none]).2
     (List.cons_ne_nil _ _) (by simp)⟩

/-- Witness for frame_objects_formula: a single object whose corners are
(0,0,0) and (3,4,0), camera initially at (7,7,7). -/
theorem frame_objects_formula_witness :
    ([some (Vec3.mk 0 0 0, [Vec3.mk 3 4 0])] :
      List (Option (Vec3 × List Vec3))) ≠ [] ∧
    boundsPoints [some (Vec3.mk 0 0 0, [Vec3.mk 3 4 0])] ≠ [] ∧
    ∃ mn mx : Vec3,
      accBounds (boundsPoints [some (Vec3.mk 0 0 0, [Vec3.mk 3 4 0])]) =
        some (mn, mx) ∧
      (∀ p ∈ boundsPoints [some (Vec3.mk 0 0 0, [Vec3.mk 3 4 0])],
        Vec3.le mn p ∧ Vec3.le p mx) ∧
      frame_objects (Vec3.mk 7 7 7) [some (Vec3.mk 0 0 0, [Vec3.mk 3 4 0])] =
        ((1 : ℝ) / 2) • (mn + mx) +
          (max ((mx - mn).length) 0.5 * CAMERA_DISTANCE_FACTOR) •
            cameraOffsetDir := by
  have hbp : boundsPoints [some (Vec3.mk 0 0 0, [Vec3.mk 3 4 0])] =
      [Vec3.mk 0 0 0, Vec3.mk 3 4 0] := rfl
  have hb : boundsPoints [some (Vec3.mk 0 0 0, [Vec3.mk 3 4 0])] ≠ [] := by
    rw [hbp]
    exact List.cons_ne_nil _ _
  exact ⟨List.cons_ne_nil _ _, hb,
    frame_objects_formula (Vec3.mk 7 7 7) _ (List.cons_ne_nil _ _) hb⟩

end BlenderExplode
